import Mathlib

/-!
Verification of the CxO Council review pipeline (TypeScript, Cloudflare
Workers) against its natural-language specification.

The embedding models text as `List Char` (JS strings), so that substring
search, line splitting and template substitution are explicit executable
functions mirroring the source.  File map of the embedded code:

* `src/cloudflare/shared/prompts.ts` — prompt templates, stage formatting,
  `extractDirectedQuestions`, `getExecutivesWithQuestions`;
* `src/cloudflare/shared/types.ts` — `Role`, `ROLES`, `Config`,
  `StageResponse`, `ReviewResult`, `JobStatus`, `QueueMessage`;
* `src/unnamed/part_003` (shared/council.ts) — `CouncilV1.reviewDocument`;
* `src/cloudflare/workers/consumer/src/index.ts` — `updateJobStatus`,
  `updateJobProgress` and the queue handler, modelled as `processMessage`
  plus an event-level model `applyEvent` of the per-job status writes;
* `src/cloudflare/workers/ingress/src/index.ts` — request validation and
  the `POST /api/review` handler, modelled as `postReview`.
-/

/-- JS strings, modelled as lists of characters. -/
abbrev Text := List Char

/-- Literal text. -/
def txt (s : String) : Text := s.toList

/-- JS `String.prototype.toUpperCase`, restricted to the ASCII uppercasing
that the addressing patterns and role names exercise. -/
def upper (s : Text) : Text := s.map Char.toUpper

/-- JS `String.prototype.startsWith` on our text model (used to realise
`includes`/`indexOf`). -/
def isPrefixTxt : Text → Text → Bool
  | [], _ => true
  | _ :: _, [] => false
  | a :: as, b :: bs => a == b && isPrefixTxt as bs

/-- JS `String.prototype.includes`: `containsSub needle hay` is true iff
`needle` occurs contiguously in `hay`. -/
def containsSub (needle : Text) : Text → Bool
  | [] => needle.isEmpty
  | c :: rest => isPrefixTxt needle (c :: rest) || containsSub needle rest

/-- JS `content.split('\n')`. -/
def splitOnNl : Text → List Text
  | [] => [[]]
  | c :: rest =>
    match splitOnNl rest with
    | [] => [[]]
    | l :: ls => if c = '\n' then [] :: l :: ls else (c :: l) :: ls

/-- JS `line.substring(lineUpper.indexOf(pat))` for an uppercase pattern
`pat`: the suffix of `line` starting at the first occurrence of `pat` in the
uppercased line (`[]` when the pattern does not occur). -/
def questionFrom (line : Text) (pat : Text) : Text :=
  match line with
  | [] => []
  | c :: rest =>
    if isPrefixTxt pat (upper (c :: rest)) then c :: rest
    else questionFrom rest pat

/-- JS `String.prototype.replace` with a string pattern: replaces the first
occurrence only (all uses in the source have a non-empty pattern). -/
def replaceFirst (pat repl : Text) : Text → Text
  | [] => []
  | c :: rest =>
    if isPrefixTxt pat (c :: rest) then repl ++ (c :: rest).drop pat.length
    else c :: replaceFirst pat repl rest

/-- JS `Array.prototype.join(sep)`. -/
def joinSep (sep : Text) : List Text → Text
  | [] => []
  | [q] => q
  | q :: qs => q ++ sep ++ joinSep sep qs

/-! ## Data model (src/cloudflare/shared/types.ts) -/

/-- `export const ROLES = ['CPO', 'CTO', 'COO', 'CISO'] as const`, as an
enumerated type.  The synthesizer role CEO is not a reviewer `Role`. -/
inductive Role
  | CPO | CTO | COO | CISO
deriving DecidableEq, Repr

/-- The string a `Role` denotes in the TypeScript union type. -/
def Role.name : Role → Text
  | .CPO => txt "CPO"
  | .CTO => txt "CTO"
  | .COO => txt "COO"
  | .CISO => txt "CISO"

/-- `ROLES` from types.ts, in source order. -/
def ROLES : List Role := [.CPO, .CTO, .COO, .CISO]

/-- `StageResponse` from types.ts. -/
structure StageResponse where
  role : Text
  response : Text
deriving DecidableEq, Repr

/-- `custom_role_instructions` field of `Config`. -/
structure RoleInstructions where
  CTO : Text
  CPO : Text
  COO : Text
  CISO : Text
  CEO : Text
deriving DecidableEq, Repr

/-- `this.config.custom_role_instructions[role]` for a reviewer role. -/
def RoleInstructions.get (ri : RoleInstructions) : Role → Text
  | .CPO => ri.CPO
  | .CTO => ri.CTO
  | .COO => ri.COO
  | .CISO => ri.CISO

/-- `Config` from types.ts. -/
structure Config where
  executive_model : Text
  ceo_model : Text
  operational_context : Text
  custom_role_instructions : RoleInstructions
deriving DecidableEq, Repr

/-- `ReviewResult` from types.ts. -/
structure ReviewResult where
  stage1 : List StageResponse
  stage2 : List StageResponse
  stage3 : List StageResponse
  synthesis : Text
deriving DecidableEq, Repr

/-! ## Directed-question router (src/cloudflare/shared/prompts.ts) -/

/-- The `targetPatterns` array built inside `extractDirectedQuestions`
(lines 162-167): every pattern ends in a colon. -/
def targetPatterns (targetRole : Text) : List Text :=
  [ txt "Question to " ++ targetRole ++ txt ":",
    txt "Question for " ++ targetRole ++ txt ":",
    txt "To " ++ targetRole ++ txt ":",
    txt "@" ++ targetRole ++ txt ":" ]

/-- The inner pattern loop of `extractDirectedQuestions` (lines 175-183):
the first pattern whose uppercase form occurs in the uppercased line wins
(`break`), and the captured text is the line from that occurrence on. -/
def captureLine (pats : List Text) (line : Text) : Option Text :=
  match pats with
  | [] => none
  | p :: ps =>
    if containsSub (upper p) (upper line) then some (questionFrom line (upper p))
    else captureLine ps line

/-- `resp.role || 'Unknown'` (JS falsy empty string). -/
def authorOf (resp : StageResponse) : Text :=
  if resp.role = [] then txt "Unknown" else resp.role

/-- The `questions` array accumulated by `extractDirectedQuestions`
(lines 161-185): one entry per line of a record that matches a pattern. -/
def directedQuestions (stage2Responses : List StageResponse) (targetRole : Text) :
    List Text :=
  stage2Responses.flatMap fun resp =>
    (splitOnNl resp.response).filterMap fun line =>
      (captureLine (targetPatterns targetRole) line).map fun q =>
        txt "From " ++ authorOf resp ++ txt ": " ++ q

/-- The sentinel returned when no question is captured (line 188). -/
def noQuestionsSentinel : Text := txt "No questions directed to your role."

/-- `extractDirectedQuestions` (prompts.ts lines 157-192). -/
def extractDirectedQuestions (stage2Responses : List StageResponse)
    (targetRole : Text) : Text :=
  let questions := directedQuestions stage2Responses targetRole
  if questions = [] then noQuestionsSentinel
  else joinSep (txt "\n\n") questions

/-- The `patterns` array built inside `getExecutivesWithQuestions`
(lines 206-211); role names are already uppercase, and — unlike
`targetPatterns` — the first, second and fourth patterns have no colon. -/
def gePatterns (role : Role) : List Text :=
  [ txt "QUESTION TO " ++ role.name,
    txt "QUESTION FOR " ++ role.name,
    txt "TO " ++ role.name ++ txt ":",
    txt "@" ++ role.name ]

/-- `patterns.some(p => content.includes(p))` for one record and role. -/
def roleMentioned (resp : StageResponse) (role : Role) : Bool :=
  (gePatterns role).any fun p => containsSub p (upper resp.response)

/-- JS `Set.prototype.add`: insertion-ordered, no duplicates. -/
def addRole (s : List Role) (r : Role) : List Role :=
  if r ∈ s then s else s ++ [r]

/-- `getExecutivesWithQuestions` (prompts.ts lines 197-219); the JS `Set` is
modelled as its insertion-ordered element list, which is also the order
`Array.from` later iterates it in. -/
def getExecutivesWithQuestions (stage2Responses : List StageResponse) :
    List Role :=
  stage2Responses.foldl
    (fun s resp => ROLES.foldl
      (fun s' role => if roleMentioned resp role then addRole s' role else s') s)
    []

/-! ## Prompt templates and stage formatting (prompts.ts) -/

/-- `STAGE1_PROMPT` (prompts.ts lines 9-30). -/
def STAGE1_PROMPT : Text := txt "{role_instructions}\n\n{operational_context}\n\n---\n\nYou are reviewing the following plan or specification:\n\n{document_content}\n\n---\n\nProvide your {role} perspective on this plan. Focus on your domain expertise.\n\nStructure your review:\n1. **Domain Assessment**: Key observations from your perspective\n2. **Strengths**: What's working well\n3. **Concerns**: Issues or risks in your domain\n4. **Questions**: What you need clarified (if any)\n5. **Recommendations**: Specific suggestions\n\nBe direct and actionable. Flag critical issues clearly."

/-- `STAGE2_PROMPT` (prompts.ts lines 33-56). -/
def STAGE2_PROMPT : Text := txt "{role_instructions}\n\n{operational_context}\n\nYou've seen initial reviews from the executive team:\n\n{stage1_text}\n\n---\n\nNow identify cross-domain tensions and ask clarifying questions.\n\nYour task:\n1. Identify where your domain concerns may conflict with others\n2. Note areas of implicit disagreement\n3. Ask 1-3 specific questions to OTHER executives\n\nFormat your questions as:\n\"Question to [ROLE]: [Your question]\"\n\nExample:\n\"Question to CTO: How does the proposed architecture handle the compliance requirements I flagged?\"\n\nBe specific. Good questions surface hidden tensions."

/-- `STAGE3_PROMPT` (prompts.ts lines 59-78). -/
def STAGE3_PROMPT : Text := txt "{role_instructions}\n\n{operational_context}\n\nPrevious discussion:\n\n{stage1_text}\n\n---\n\nQuestions directed to you:\n\n{directed_questions}\n\n---\n\nRespond to questions directed to your role. Be specific and actionable.\n\nIf a question reveals a genuine tension, acknowledge it rather than dismissing it.\nIf you need to defer to another executive, say so explicitly."

/-- `STAGE4_PROMPT` (prompts.ts lines 81-128). -/
def STAGE4_PROMPT : Text := txt "You are the CEO synthesizing the executive team's deliberation.\n\n{operational_context}\n\n---\n\nOriginal Plan:\n{document_content}\n\n---\n\nExecutive Reviews (Stage 1):\n{stage1_text}\n\n---\n\nCross-Domain Questions (Stage 2):\n{stage2_text}\n\n---\n\nResponses (Stage 3):\n{stage3_text}\n\n---\n\nSynthesize into an executive decision. Use this structure:\n\n## Executive Decision\n[Clear go/no-go/conditional-go with rationale]\n\n## Key Consensus Points\n[Where the team agreed]\n\n## Unresolved Tensions\n[Tradeoffs that remain - don't force false consensus]\n\n## Action Items\n[Concrete next steps with ownership]\n- [ ] [Action] — Owner: [Role]\n\n## Phase Gate Criteria\n[What must be true before proceeding to next phase?]\n\n## What Remains Unknown\n[Honest acknowledgment of uncertainties]\n\nBe decisive while honoring the complexity surfaced by your team."

/-- `formatStage1Responses` (prompts.ts lines 133-140). -/
def formatStage1Responses (responses : List StageResponse) : Text :=
  joinSep (txt "\n---\n") (responses.map fun resp =>
    txt "### " ++ (if resp.role = [] then txt "Executive" else resp.role)
      ++ txt "\n" ++ resp.response ++ txt "\n")

/-- `formatStage2Responses` (prompts.ts lines 145-152); also used to format
stage-3 records. -/
def formatStage2Responses (responses : List StageResponse) : Text :=
  joinSep (txt "\n") (responses.map fun resp =>
    txt "### " ++ (if resp.role = [] then txt "Executive" else resp.role)
      ++ txt "\n" ++ resp.response ++ txt "\n")

/-! ## Deliberation engine (src/unnamed/part_003, shared/council.ts)

The external generation capability `llm.query(prompt, model, temperature)`
is abstracted as a function from a call description to `Except`: an
`Except.error` is a rejected promise (`ProviderError`).  The engine also
returns the list of calls it issued, tagged by stage; `Promise.all`
preserves input order and rejects iff any call rejects, which the in-order
`callAll` below mirrors (only the identity of the reported error among
several simultaneous failures is order-normalised). -/

/-- One `llm.query` invocation: prompt, model id and sampling temperature. -/
structure GenCall where
  prompt : Text
  model : Text
  temp : ℚ
deriving DecidableEq, Repr

/-- The generation capability. -/
abbrev Gen := GenCall → Except Text Text

/-- Which of the four phases issued a call. -/
inductive StageTag
  | s1 | s2 | s3 | s4
deriving DecidableEq, Repr

/-- `Promise.all` over per-role calls: results in issuance order, failing
iff any call fails. -/
def callAll (gen : Gen) : List (Role × GenCall) → Except Text (List StageResponse)
  | [] => .ok []
  | (r, c) :: rest =>
    match gen c with
    | .error e => .error e
    | .ok resp =>
      match callAll gen rest with
      | .error e => .error e
      | .ok rs => .ok (⟨r.name, resp⟩ :: rs)

/-- Stage-1 prompt construction (council.ts lines 44-48), replacements in
source order. -/
def stage1Prompt (cfg : Config) (documentContent : Text) (role : Role) : Text :=
  replaceFirst (txt "{document_content}") documentContent
    (replaceFirst (txt "{operational_context}") cfg.operational_context
      (replaceFirst (txt "{role_instructions}") (cfg.custom_role_instructions.get role)
        (replaceFirst (txt "{role}") role.name STAGE1_PROMPT)))

/-- Stage-2 prompt construction (council.ts lines 73-76). -/
def stage2Prompt (cfg : Config) (stage1Text : Text) (role : Role) : Text :=
  replaceFirst (txt "{stage1_text}") stage1Text
    (replaceFirst (txt "{operational_context}") cfg.operational_context
      (replaceFirst (txt "{role_instructions}") (cfg.custom_role_instructions.get role)
        STAGE2_PROMPT))

/-- Stage-3 prompt construction (council.ts lines 106-110). -/
def stage3Prompt (cfg : Config) (stage1Text directedQs : Text) (role : Role) : Text :=
  replaceFirst (txt "{directed_questions}") directedQs
    (replaceFirst (txt "{stage1_text}") stage1Text
      (replaceFirst (txt "{operational_context}") cfg.operational_context
        (replaceFirst (txt "{role_instructions}") (cfg.custom_role_instructions.get role)
          STAGE3_PROMPT)))

/-- Stage-4 prompt construction (council.ts lines 136-141). -/
def stage4Prompt (cfg : Config) (documentContent stage1Text stage2Text stage3Text : Text) :
    Text :=
  replaceFirst (txt "{stage3_text}") stage3Text
    (replaceFirst (txt "{stage2_text}") stage2Text
      (replaceFirst (txt "{stage1_text}") stage1Text
        (replaceFirst (txt "{document_content}") documentContent
          (replaceFirst (txt "{operational_context}") cfg.operational_context
            STAGE4_PROMPT))))

/-- The four stage-1 calls (council.ts lines 38-58): executive model,
temperature 0.7. -/
def stage1Calls (cfg : Config) (doc : Text) : List (Role × GenCall) :=
  ROLES.map fun role =>
    (role, { prompt := stage1Prompt cfg doc role
             model := cfg.executive_model
             temp := 7/10 })

/-- The four stage-2 calls (council.ts lines 67-86): executive model,
temperature 0.6. -/
def stage2Calls (cfg : Config) (stage1Text : Text) : List (Role × GenCall) :=
  ROLES.map fun role =>
    (role, { prompt := stage2Prompt cfg stage1Text role
             model := cfg.executive_model
             temp := 6/10 })

/-- The stage-3 calls (council.ts lines 91-125): one per role in
`getExecutivesWithQuestions`, executive model, temperature 0.7.  The
source's `if (rolesWithQuestions.size > 0)` guard only skips the mapping of
an empty set, which equals mapping it. -/
def stage3Calls (cfg : Config) (stage1Text : Text)
    (stage2Results : List StageResponse) : List (Role × GenCall) :=
  (getExecutivesWithQuestions stage2Results).map fun role =>
    (role, { prompt := stage3Prompt cfg stage1Text
                         (extractDirectedQuestions stage2Results role.name) role
             model := cfg.executive_model
             temp := 7/10 })

/-- The aggregated stage-3 text sentinel (council.ts line 129). -/
def noResponsesSentinel : Text := txt "No responses required."

/-- council.ts lines 127-129. -/
def stage3TextOf (stage3Results : List StageResponse) : Text :=
  if stage3Results.length > 0 then formatStage2Responses stage3Results
  else noResponsesSentinel

/-- The single stage-4 call (council.ts lines 136-147): CEO model,
temperature 0.7. -/
def stage4Call (cfg : Config) (doc stage1Text stage2Text stage3Text : Text) : GenCall :=
  { prompt := stage4Prompt cfg doc stage1Text stage2Text stage3Text
    model := cfg.ceo_model
    temp := 7/10 }

/-- `CouncilV1.reviewDocument` (council.ts lines 29-160), returning the
tagged list of generation calls issued together with the outcome.  The
progress callback only merges the `progress` field of the job record and is
modelled at the dispatcher level (`processMessage`, `applyEvent`). -/
def reviewDocument (doc : Text) (cfg : Config) (gen : Gen) :
    List (StageTag × GenCall) × Except Text ReviewResult :=
  match callAll gen (stage1Calls cfg doc) with
  | .error e =>
    ((stage1Calls cfg doc).map (fun rc => (StageTag.s1, rc.2)), .error e)
  | .ok stage1Results =>
    match callAll gen (stage2Calls cfg (formatStage1Responses stage1Results)) with
    | .error e =>
      ((stage1Calls cfg doc).map (fun rc => (StageTag.s1, rc.2)) ++
        (stage2Calls cfg (formatStage1Responses stage1Results)).map
          (fun rc => (StageTag.s2, rc.2)),
       .error e)
    | .ok stage2Results =>
      match callAll gen
          (stage3Calls cfg (formatStage1Responses stage1Results) stage2Results) with
      | .error e =>
        ((stage1Calls cfg doc).map (fun rc => (StageTag.s1, rc.2)) ++
          (stage2Calls cfg (formatStage1Responses stage1Results)).map
            (fun rc => (StageTag.s2, rc.2)) ++
          (stage3Calls cfg (formatStage1Responses stage1Results) stage2Results).map
            (fun rc => (StageTag.s3, rc.2)),
         .error e)
      | .ok stage3Results =>
        match gen (stage4Call cfg doc (formatStage1Responses stage1Results)
            (formatStage2Responses stage2Results) (stage3TextOf stage3Results)) with
        | .error e =>
          ((stage1Calls cfg doc).map (fun rc => (StageTag.s1, rc.2)) ++
            (stage2Calls cfg (formatStage1Responses stage1Results)).map
              (fun rc => (StageTag.s2, rc.2)) ++
            (stage3Calls cfg (formatStage1Responses stage1Results) stage2Results).map
              (fun rc => (StageTag.s3, rc.2)) ++
            [(StageTag.s4, stage4Call cfg doc (formatStage1Responses stage1Results)
              (formatStage2Responses stage2Results) (stage3TextOf stage3Results))],
           .error e)
        | .ok synthesis =>
          ((stage1Calls cfg doc).map (fun rc => (StageTag.s1, rc.2)) ++
            (stage2Calls cfg (formatStage1Responses stage1Results)).map
              (fun rc => (StageTag.s2, rc.2)) ++
            (stage3Calls cfg (formatStage1Responses stage1Results) stage2Results).map
              (fun rc => (StageTag.s3, rc.2)) ++
            [(StageTag.s4, stage4Call cfg doc (formatStage1Responses stage1Results)
              (formatStage2Responses stage2Results) (stage3TextOf stage3Results))],
           .ok { stage1 := stage1Results
                 stage2 := stage2Results
                 stage3 := stage3Results
                 synthesis := synthesis })

/-! ## Queue consumer (src/cloudflare/workers/consumer/src/index.ts) -/

/-- The job status union from types.ts. -/
inductive Status
  | queued | processing | completed | failed
deriving DecidableEq, Repr

/-- The `progress` field of `JobStatus`. -/
structure Progress where
  stage : Text
  step : Text
deriving DecidableEq, Repr

/-- `JobStatus` from types.ts. -/
structure JobStatus where
  id : Text
  status : Status
  created_at : Text
  started_at : Option Text := none
  completed_at : Option Text := none
  failed_at : Option Text := none
  error : Option Text := none
  webhook_url : Option Text := none
  progress : Option Progress := none
deriving DecidableEq, Repr

/-- The `extra : Partial<JobStatus>` arguments `updateJobStatus` is actually
called with (only these fields ever appear in `extra`). -/
structure StatusExtra where
  started_at : Option Text := none
  completed_at : Option Text := none
  failed_at : Option Text := none
  error : Option Text := none
  progress : Option Progress := none
deriving DecidableEq, Repr

/-- `updateJobStatus` (consumer lines 139-161): spread-merge of the new
fields over the existing record; `created_at: existing?.created_at || now`
falls back to `now` when absent or empty (JS falsy). -/
def updateJobStatus (existing : Option JobStatus) (jobId : Text) (status : Status)
    (extra : StatusExtra) (now : Text) : JobStatus :=
  { id := jobId
    status := status
    created_at := match existing with
      | some e => if e.created_at = [] then now else e.created_at
      | none => now
    started_at := (extra.started_at).orElse fun _ => existing.bind (·.started_at)
    completed_at := (extra.completed_at).orElse fun _ => existing.bind (·.completed_at)
    failed_at := (extra.failed_at).orElse fun _ => existing.bind (·.failed_at)
    error := (extra.error).orElse fun _ => existing.bind (·.error)
    webhook_url := existing.bind (·.webhook_url)
    progress := (extra.progress).orElse fun _ => existing.bind (·.progress) }

/-- `updateJobProgress` (consumer lines 166-186): a no-op when the record is
missing, otherwise merges only the `progress` field. -/
def updateJobProgress (existing : Option JobStatus) (p : Progress) :
    Option JobStatus :=
  match existing with
  | none => none
  | some e => some { e with progress := some p }

/-- The per-job persistent state a consumer touches: the KV status record
and the three R2 blobs. -/
structure StoreState where
  job : Option JobStatus
  doc : Option Text
  cfg : Option Config
  result : Option ReviewResult
deriving Repr

/-- The queue handler for one message (consumer lines 16-133): mark
`processing`, load blobs, run the engine (its progress reports `pws` merge
the `progress` field in delivery order), then either persist the result and
mark `completed`, or mark `failed` with the captured error message.
Webhook calls and queue ack/retry have no effect on this state. -/
def processMessage (st : StoreState) (jobId : Text) (gen : Gen)
    (pws : List Progress) (nowStart nowEnd : Text) : StoreState :=
  match st.doc, st.cfg with
  | some d, some c =>
    match (reviewDocument d c gen).snd with
    | .ok r =>
      { st with
        result := some r
        job := some (updateJobStatus
          (pws.foldl (fun j p => updateJobProgress j p)
            (some (updateJobStatus st.job jobId .processing
              { started_at := some nowStart } nowStart)))
          jobId .completed { completed_at := some nowEnd } nowEnd) }
    | .error e =>
      { st with
        job := some (updateJobStatus
          (pws.foldl (fun j p => updateJobProgress j p)
            (some (updateJobStatus st.job jobId .processing
              { started_at := some nowStart } nowStart)))
          jobId .failed { failed_at := some nowEnd, error := some e } nowEnd) }
  | _, _ =>
    { st with
      job := some (updateJobStatus
        (some (updateJobStatus st.job jobId .processing
          { started_at := some nowStart } nowStart))
        jobId .failed
        { failed_at := some nowEnd,
          error := some (txt "Document or config not found for job " ++ jobId) } nowEnd) }

/-! ## Event-level model of the per-job status writes

Each constructor is one write the system performs against a job's status
record: the ingress initial write is `initialJobStatus`, and the dispatcher
writes are `applyEvent` (a redelivered queue message replays
`beginAttempt` before a new `finishSuccess`/`finishFailure`). -/

/-- The initial record the ingress writes at submission (ingress lines
89-102). -/
def initialJobStatus (jobId ts : Text) (webhook : Option Text) : JobStatus :=
  { id := jobId, status := .queued, created_at := ts, webhook_url := webhook }

/-- One dispatcher-side status-store write for a job. -/
inductive Event
  | beginAttempt (now : Text)
  | finishSuccess (now : Text)
  | finishFailure (err now : Text)
  | reportProgress (stage step : Text)
deriving DecidableEq, Repr

/-- Effect of one write on the job's status record, via the source's
`updateJobStatus`/`updateJobProgress` (consumer lines 24-26, 73-75,
106-109, 50). -/
def applyEvent (jobId : Text) (rec : Option JobStatus) : Event → Option JobStatus
  | .beginAttempt now =>
    some (updateJobStatus rec jobId .processing { started_at := some now } now)
  | .finishSuccess now =>
    some (updateJobStatus rec jobId .completed { completed_at := some now } now)
  | .finishFailure err now =>
    some (updateJobStatus rec jobId .failed
      { failed_at := some now, error := some err } now)
  | .reportProgress stage step => updateJobProgress rec ⟨stage, step⟩

/-- A sequence of dispatcher writes applied to a record. -/
def runEvents (jobId : Text) (init : Option JobStatus) (es : List Event) :
    Option JobStatus :=
  es.foldl (applyEvent jobId) init

/-- The status stored in a record, if any. -/
def statusOf (rec : Option JobStatus) : Option Status := rec.map (·.status)

/-- Whether the record is in a terminal status. -/
def isTerminalRec (rec : Option JobStatus) : Bool :=
  match statusOf rec with
  | some .completed => true
  | some .failed => true
  | _ => false

/-! ## Ingress (src/cloudflare/workers/ingress/src/index.ts) -/

/-- `QueueMessage` from types.ts. -/
structure QueueMessage where
  jobId : Text
  documentKey : Text
  configKey : Text
  webhookUrl : Option Text
deriving DecidableEq, Repr

/-- The raw JSON body's `config.custom_role_instructions`, fields possibly
missing. -/
structure RawRoleInstructions where
  CTO : Option Text := none
  CPO : Option Text := none
  COO : Option Text := none
  CISO : Option Text := none
  CEO : Option Text := none
deriving Repr

/-- The raw JSON body's `config`, fields possibly missing. -/
structure RawConfig where
  executive_model : Option Text := none
  ceo_model : Option Text := none
  operational_context : Option Text := none
  custom_role_instructions : Option RawRoleInstructions := none
deriving Repr

/-- The raw JSON request body, fields possibly missing. -/
structure RawRequest where
  document : Option Text := none
  config : Option RawConfig := none
  webhook_url : Option Text := none
deriving Repr

/-- `z.object({CTO: z.string(), ...})` for the role instructions. -/
def parseRoleInstructions (r : RawRoleInstructions) : Option RoleInstructions :=
  match r.CTO, r.CPO, r.COO, r.CISO, r.CEO with
  | some cto, some cpo, some coo, some ciso, some ceo =>
    some { CTO := cto, CPO := cpo, COO := coo, CISO := ciso, CEO := ceo }
  | _, _, _, _, _ => none

/-- `configSchema` (ingress lines 24-35): every field required. -/
def parseConfig (r : RawConfig) : Option Config :=
  match r.executive_model, r.ceo_model, r.operational_context,
        r.custom_role_instructions with
  | some em, some cm, some oc, some rawRi =>
    (parseRoleInstructions rawRi).map fun ri =>
      { executive_model := em, ceo_model := cm, operational_context := oc,
        custom_role_instructions := ri }
  | _, _, _, _ => none

/-- The validated request body. -/
structure ReviewRequest where
  document : Text
  config : Config
  webhook_url : Option Text
deriving DecidableEq, Repr

/-- `reviewRequestSchema.parse` (ingress lines 37-41, 52): document between
1 and 100000 characters, config complete, webhook URL (when present)
accepted by zod's URL check, abstracted as the predicate `isUrl`. -/
def parseReviewRequest (isUrl : Text → Bool) (r : RawRequest) :
    Option ReviewRequest :=
  match r.document with
  | none => none
  | some d =>
    if d.length < 1 ∨ d.length > 100000 then none
    else
      match r.config with
      | none => none
      | some rawCfg =>
        match parseConfig rawCfg with
        | none => none
        | some cfg =>
          match r.webhook_url with
          | none => some { document := d, config := cfg, webhook_url := none }
          | some u =>
            if isUrl u then some { document := d, config := cfg, webhook_url := some u }
            else none

/-- The observable outcome of `POST /api/review`: HTTP status plus every
write it performed. -/
structure IngressResult where
  httpStatus : Nat
  docPuts : List (Text × Text)
  configPuts : List (Text × Config)
  jobPuts : List (Text × JobStatus)
  queueMsgs : List QueueMessage
deriving Repr

/-- `POST /api/review` (ingress lines 49-137): a `ZodError` is answered
with 400 before any write happens; otherwise the document, config and
initial status record are stored and one queue message is sent (202). -/
def postReview (isUrl : Text → Bool) (raw : RawRequest) (jobId ts : Text) :
    IngressResult :=
  match parseReviewRequest isUrl raw with
  | none =>
    { httpStatus := 400, docPuts := [], configPuts := [], jobPuts := [],
      queueMsgs := [] }
  | some v =>
    let docKey := txt "documents/" ++ jobId ++ txt ".md"
    let cfgKey := txt "configs/" ++ jobId ++ txt ".json"
    { httpStatus := 202
      docPuts := [(docKey, v.document)]
      configPuts := [(cfgKey, v.config)]
      jobPuts := [(txt "job:" ++ jobId, initialJobStatus jobId ts v.webhook_url)]
      queueMsgs := [{ jobId := jobId, documentKey := docKey, configKey := cfgKey,
                      webhookUrl := v.webhook_url }] }

/-! ## Statement-side definitions -/

/-- Whether a line contains (case-insensitively) any of the
`extractDirectedQuestions` addressing patterns for `targetRole`. -/
def lineMatches (targetRole line : Text) : Bool :=
  (targetPatterns targetRole).any fun p => containsSub (upper p) (upper line)

/-- Whether any line of any record matches an addressing pattern for
`targetRole`. -/
def someLineMatches (recs : List StageResponse) (targetRole : Text) : Bool :=
  recs.any fun resp => (splitOnNl resp.response).any (lineMatches targetRole)

/-- Whether a generation call succeeded. -/
def exceptIsOk : Except Text Text → Bool
  | .ok _ => true
  | .error _ => false

/-- The model id the spec requires for each phase. -/
def modelFor (cfg : Config) : StageTag → Text
  | .s4 => cfg.ceo_model
  | _ => cfg.executive_model

/-- The sampling temperature the spec requires for each phase. -/
def tempFor : StageTag → ℚ
  | .s1 => 7/10
  | .s2 => 6/10
  | .s3 => 7/10
  | .s4 => 7/10

/-- Whether no stage-2 record contains any addressing pattern (from
`getExecutivesWithQuestions`) for any reviewer role. -/
def noRoleAddressed (recs : List StageResponse) : Bool :=
  recs.all fun resp => ROLES.all fun role => !(roleMentioned resp role)

/-! ## Concrete instances used to witness the theorems -/

instance : DecidableEq (Except Text ReviewResult) := fun a b =>
  match a, b with
  | .error e1, .error e2 =>
    if h : e1 = e2 then .isTrue (by rw [h])
    else .isFalse fun hc => h (by injection hc)
  | .ok r1, .ok r2 =>
    if h : r1 = r2 then .isTrue (by rw [h])
    else .isFalse fun hc => h (by injection hc)
  | .error _, .ok _ => .isFalse fun hc => Except.noConfusion hc
  | .ok _, .error _ => .isFalse fun hc => Except.noConfusion hc

/-- A concrete valid `Config`. -/
def cfg0 : Config :=
  { executive_model := txt "openrouter:exec"
    ceo_model := txt "openrouter:ceo"
    operational_context := txt "ctx"
    custom_role_instructions :=
      { CTO := txt "t", CPO := txt "p", COO := txt "o", CISO := txt "s",
        CEO := txt "c" } }

/-- A generation capability that always answers `x`. -/
def genOk0 : Gen := fun _ => .ok (txt "x")

/-- A generation capability that always fails. -/
def genBad0 : Gen := fun _ => .error (txt "boom")

/-- A generation capability that always answers with a directed question. -/
def gen1 : Gen := fun _ => .ok (txt "To CTO: ok?")

/-- The result of a `genOk0` run. -/
def reviewResult0 : ReviewResult :=
  { stage1 := [⟨txt "CPO", txt "x"⟩, ⟨txt "CTO", txt "x"⟩, ⟨txt "COO", txt "x"⟩,
               ⟨txt "CISO", txt "x"⟩]
    stage2 := [⟨txt "CPO", txt "x"⟩, ⟨txt "CTO", txt "x"⟩, ⟨txt "COO", txt "x"⟩,
               ⟨txt "CISO", txt "x"⟩]
    stage3 := []
    synthesis := txt "x" }

/-- The result of a `gen1` run. -/
def reviewResult1 : ReviewResult :=
  { stage1 := [⟨txt "CPO", txt "To CTO: ok?"⟩, ⟨txt "CTO", txt "To CTO: ok?"⟩,
               ⟨txt "COO", txt "To CTO: ok?"⟩, ⟨txt "CISO", txt "To CTO: ok?"⟩]
    stage2 := [⟨txt "CPO", txt "To CTO: ok?"⟩, ⟨txt "CTO", txt "To CTO: ok?"⟩,
               ⟨txt "COO", txt "To CTO: ok?"⟩, ⟨txt "CISO", txt "To CTO: ok?"⟩]
    stage3 := [⟨txt "CTO", txt "To CTO: ok?"⟩]
    synthesis := txt "To CTO: ok?" }

/-- A store state holding the blobs of one job. -/
def st0 : StoreState :=
  { job := none, doc := some (txt "d"), cfg := some cfg0, result := none }

/-- A job record left by a failed first attempt. -/
def failedRec0 : JobStatus :=
  { id := txt "j", status := .failed, created_at := txt "t0",
    started_at := some (txt "t1"), failed_at := some (txt "t2"),
    error := some (txt "boom"),
    progress := some ⟨txt "stage1", txt "Querying CPO"⟩ }

/-- A raw submission whose document is empty. -/
def rawBad0 : RawRequest :=
  { document := some [], config := none, webhook_url := none }

/-! ## Lemmas about the text layer -/

theorem isPrefixTxt_iff (a b : Text) : isPrefixTxt a b = true ↔ ∃ t, b = a ++ t := by
  induction a generalizing b with
  | nil => simp [isPrefixTxt]
  | cons x xs ih =>
    cases b with
    | nil => simp [isPrefixTxt]
    | cons y ys =>
      simp only [isPrefixTxt, Bool.and_eq_true, beq_iff_eq, ih, List.cons_append,
        List.cons_eq_cons]
      constructor
      · rintro ⟨rfl, t, rfl⟩; exact ⟨t, rfl, rfl⟩
      · rintro ⟨t, rfl, rfl⟩; exact ⟨rfl, t, rfl⟩

theorem containsSub_iff (n h : Text) :
    containsSub n h = true ↔ ∃ s t, h = s ++ n ++ t := by
  induction h with
  | nil =>
    simp only [containsSub, List.isEmpty_iff]
    constructor
    · rintro rfl; exact ⟨[], [], rfl⟩
    · rintro ⟨s, t, hst⟩
      rcases List.append_eq_nil.mp hst.symm with ⟨h1, -⟩
      exact (List.append_eq_nil.mp h1).2
  | cons c rest ih =>
    simp only [containsSub, Bool.or_eq_true, isPrefixTxt_iff, ih]
    constructor
    · rintro (⟨t, ht⟩ | ⟨s, t, hst⟩)
      · exact ⟨[], t, by simp [ht]⟩
      · exact ⟨c :: s, t, by simp [hst]⟩
    · rintro ⟨s, t, hst⟩
      cases s with
      | nil => exact .inl ⟨t, by simpa using hst⟩
      | cons a s' =>
        simp only [List.cons_append, List.cons_eq_cons] at hst
        exact .inr ⟨s', t, hst.2⟩

theorem containsSub_trans {a b c : Text} (h1 : containsSub a b = true)
    (h2 : containsSub b c = true) : containsSub a c = true := by
  rw [containsSub_iff] at *
  obtain ⟨s1, t1, rfl⟩ := h1
  obtain ⟨s2, t2, rfl⟩ := h2
  exact ⟨s2 ++ s1, t1 ++ t2, by simp⟩

theorem containsSub_upper {a b : Text} (h : containsSub a b = true) :
    containsSub (upper a) (upper b) = true := by
  rw [containsSub_iff] at *
  obtain ⟨s, t, rfl⟩ := h
  exact ⟨upper s, upper t, by simp [upper]⟩

theorem splitOnNl_decomp (s : Text) :
    ∃ hd tl, splitOnNl s = hd :: tl ∧ (∃ b, s = hd ++ b) ∧
      ∀ l ∈ tl, ∃ a b, s = a ++ l ++ b := by
  induction s with
  | nil => exact ⟨[], [], rfl, ⟨[], rfl⟩, by simp⟩
  | cons c rest ih =>
    obtain ⟨hd, tl, hsp, ⟨b0, hb0⟩, htl⟩ := ih
    by_cases hc : c = '\n'
    · refine ⟨[], hd :: tl, by simp [splitOnNl, hsp, hc], ⟨c :: rest, rfl⟩, ?_⟩
      intro l hl
      rcases List.mem_cons.mp hl with rfl | hl
      · exact ⟨[c], b0, by simp [hb0]⟩
      · obtain ⟨a, b, hab⟩ := htl l hl
        exact ⟨c :: a, b, by simp [hab]⟩
    · refine ⟨c :: hd, tl, by simp [splitOnNl, hsp, hc], ⟨b0, by simp [hb0]⟩, ?_⟩
      intro l hl
      obtain ⟨a, b, hab⟩ := htl l hl
      exact ⟨c :: a, b, by simp [hab]⟩

theorem containsSub_of_mem_splitOnNl {l s : Text} (h : l ∈ splitOnNl s) :
    containsSub l s = true := by
  obtain ⟨hd, tl, hsp, ⟨b0, hb0⟩, htl⟩ := splitOnNl_decomp s
  rw [hsp] at h
  rcases List.mem_cons.mp h with rfl | h
  · exact (containsSub_iff _ _).mpr ⟨[], b0, by simp [hb0]⟩
  · obtain ⟨a, b, hab⟩ := htl l h
    exact (containsSub_iff _ _).mpr ⟨a, b, hab⟩

theorem captureLine_eq_some {pats : List Text} {line q : Text}
    (h : captureLine pats line = some q) :
    ∃ p ∈ pats, containsSub (upper p) (upper line) = true ∧
      q = questionFrom line (upper p) := by
  induction pats with
  | nil => simp [captureLine] at h
  | cons p ps ih =>
    rw [captureLine] at h
    split at h
    · next hc => injection h with h; exact ⟨p, by simp, hc, h.symm⟩
    · obtain ⟨p', hp', hc, hq⟩ := ih h
      exact ⟨p', by simp [hp'], hc, hq⟩

theorem captureLine_none_iff {pats : List Text} {line : Text} :
    captureLine pats line = none ↔
      (pats.any fun p => containsSub (upper p) (upper line)) = false := by
  induction pats with
  | nil => simp [captureLine]
  | cons p ps ih =>
    rw [captureLine]
    by_cases hc : containsSub (upper p) (upper line) = true
    · simp [hc]
    · rw [Bool.not_eq_true] at hc
      simp [hc, ih]

theorem questionFrom_suffix (line pat : Text) :
    ∃ a, line = a ++ questionFrom line pat := by
  induction line with
  | nil => exact ⟨[], rfl⟩
  | cons c rest ih =>
    rw [questionFrom]
    split
    · exact ⟨[], rfl⟩
    · obtain ⟨a, ha⟩ := ih
      exact ⟨c :: a, by simp [← ha]⟩

theorem questionFrom_isPrefix {line pat : Text}
    (h : containsSub pat (upper line) = true) :
    isPrefixTxt pat (upper (questionFrom line pat)) = true := by
  induction line with
  | nil =>
    simp only [upper, List.map_nil, containsSub, List.isEmpty_iff] at h
    simp [questionFrom, h, isPrefixTxt, upper]
  | cons c rest ih =>
    rw [questionFrom]
    split
    · next hp => exact hp
    · next hp =>
      apply ih
      rw [Bool.not_eq_true] at hp
      simp only [upper, List.map_cons, containsSub] at h
      rw [show Char.toUpper c :: List.map Char.toUpper rest
            = upper (c :: rest) by simp [upper], hp] at h
      simpa [upper] using h

theorem questionFrom_longest {line pat s : Text} (hs : ∃ a, line = a ++ s)
    (hp : isPrefixTxt pat (upper s) = true) :
    s.length ≤ (questionFrom line pat).length := by
  induction line with
  | nil =>
    obtain ⟨a, ha⟩ := hs
    rcases List.append_eq_nil.mp ha.symm with ⟨-, rfl⟩
    simp
  | cons c rest ih =>
    obtain ⟨a, ha⟩ := hs
    rw [questionFrom]
    split
    · next h =>
      calc s.length ≤ a.length + s.length := Nat.le_add_left _ _
        _ = (c :: rest).length := by rw [ha]; simp
    · next h =>
      cases a with
      | nil =>
        simp only [List.nil_append] at ha
        exact absurd (ha ▸ hp) h
      | cons a0 a' =>
        rw [List.cons_append, List.cons_eq_cons] at ha
        exact ih ⟨a', ha.2⟩

theorem joinSep_cons (sep q : Text) (qs : List Text) :
    ∃ t, joinSep sep (q :: qs) = q ++ t := by
  cases qs with
  | nil => exact ⟨[], by simp [joinSep]⟩
  | cons q' qs' => exact ⟨sep ++ joinSep sep (q' :: qs'), by simp [joinSep]⟩

/-! ## Lemmas about the directed-question router -/

theorem mem_ROLES (r : Role) : r ∈ ROLES := by cases r <;> simp [ROLES]

theorem mem_addRole_self (s : List Role) (r : Role) : r ∈ addRole s r := by
  unfold addRole; split <;> simp_all

theorem mem_addRole_of_mem {x : Role} {s : List Role} (h : x ∈ s) (r : Role) :
    x ∈ addRole s r := by
  unfold addRole; split <;> simp [h]

theorem mem_of_mem_addRole {x r : Role} {s : List Role} (h : x ∈ addRole s r) :
    x ∈ s ∨ x = r := by
  unfold addRole at h
  split at h
  · exact .inl h
  · simpa using h

theorem addRole_nodup {s : List Role} (h : s.Nodup) (r : Role) :
    (addRole s r).Nodup := by
  unfold addRole
  split
  · exact h
  · next hr => simp [List.nodup_append, h, List.disjoint_singleton, hr]

theorem mem_innerFold_of_mem (resp : StageResponse) (l : List Role) {x : Role}
    {s : List Role} (h : x ∈ s) :
    x ∈ l.foldl
      (fun s' role => if roleMentioned resp role then addRole s' role else s') s := by
  induction l generalizing s with
  | nil => exact h
  | cons a l ih =>
    simp only [List.foldl_cons]
    apply ih
    split
    · exact mem_addRole_of_mem h a
    · exact h

theorem mem_innerFold_self (resp : StageResponse) {r : Role} (l : List Role)
    {s : List Role} (hr : r ∈ l) (hm : roleMentioned resp r = true) :
    r ∈ l.foldl
      (fun s' role => if roleMentioned resp role then addRole s' role else s') s := by
  induction l generalizing s with
  | nil => simp at hr
  | cons a l ih =>
    simp only [List.foldl_cons]
    rcases List.mem_cons.mp hr with rfl | hr
    · apply mem_innerFold_of_mem
      rw [if_pos hm]
      exact mem_addRole_self _ _
    · exact ih hr

theorem mem_outerFold {r : Role} (recs : List StageResponse) (s : List Role)
    (h : r ∈ s ∨ ∃ resp ∈ recs, roleMentioned resp r = true) :
    r ∈ recs.foldl
      (fun s resp => ROLES.foldl
        (fun s' role => if roleMentioned resp role then addRole s' role else s') s)
      s := by
  induction recs generalizing s with
  | nil =>
    rcases h with h | ⟨resp, hresp, -⟩
    · exact h
    · simp at hresp
  | cons a recs ih =>
    simp only [List.foldl_cons]
    apply ih
    rcases h with h | ⟨resp, hresp, hm⟩
    · exact .inl (mem_innerFold_of_mem a ROLES h)
    · rcases List.mem_cons.mp hresp with rfl | hresp
      · exact .inl (mem_innerFold_self resp ROLES (mem_ROLES r) hm)
      · exact .inr ⟨resp, hresp, hm⟩

theorem mem_gEWQ {recs : List StageResponse} {resp : StageResponse} {r : Role}
    (hresp : resp ∈ recs) (hm : roleMentioned resp r = true) :
    r ∈ getExecutivesWithQuestions recs :=
  mem_outerFold recs [] (.inr ⟨resp, hresp, hm⟩)

theorem innerFold_nodup_subset (resp : StageResponse) (l : List Role)
    (s : List Role) (hs : s.Nodup) :
    (l.foldl
      (fun s' role => if roleMentioned resp role then addRole s' role else s') s).Nodup ∧
    ∀ x ∈ l.foldl
      (fun s' role => if roleMentioned resp role then addRole s' role else s') s,
      x ∈ s ∨ x ∈ l := by
  induction l generalizing s with
  | nil => exact ⟨hs, fun x hx => .inl hx⟩
  | cons a l ih =>
    simp only [List.foldl_cons]
    have hstep : (if roleMentioned resp a then addRole s a else s).Nodup := by
      split
      · exact addRole_nodup hs a
      · exact hs
    obtain ⟨hn, hsub⟩ := ih _ hstep
    refine ⟨hn, fun x hx => ?_⟩
    rcases hsub x hx with hx' | hx'
    · split at hx'
      · rcases mem_of_mem_addRole hx' with h | rfl
        · exact .inl h
        · exact .inr (by simp)
      · exact .inl hx'
    · exact .inr (by simp [hx'])

theorem gEWQ_aux_nodup_subset (recs : List StageResponse) (s : List Role)
    (hs : s.Nodup) (hsub : ∀ x ∈ s, x ∈ ROLES) :
    (recs.foldl
      (fun s resp => ROLES.foldl
        (fun s' role => if roleMentioned resp role then addRole s' role else s') s)
      s).Nodup ∧
    ∀ x ∈ recs.foldl
      (fun s resp => ROLES.foldl
        (fun s' role => if roleMentioned resp role then addRole s' role else s') s)
      s, x ∈ ROLES := by
  induction recs generalizing s with
  | nil => exact ⟨hs, hsub⟩
  | cons a recs ih =>
    simp only [List.foldl_cons]
    obtain ⟨hn, hsub'⟩ := innerFold_nodup_subset a ROLES s hs
    exact ih _ hn fun x hx => (hsub' x hx).elim (hsub x) id

theorem gEWQ_nodup (recs : List StageResponse) :
    (getExecutivesWithQuestions recs).Nodup :=
  (gEWQ_aux_nodup_subset recs [] (by simp) (by simp)).1

theorem gEWQ_subset (recs : List StageResponse) :
    ∀ x ∈ getExecutivesWithQuestions recs, x ∈ ROLES :=
  (gEWQ_aux_nodup_subset recs [] (by simp) (by simp)).2

theorem targetPatterns_ge {r : Role} {p : Text} (hp : p ∈ targetPatterns r.name) :
    ∃ p' ∈ gePatterns r, containsSub p' (upper p) = true := by
  cases r <;> · simp only [targetPatterns, Role.name, List.mem_cons,
                  List.not_mem_nil, or_false] at hp
                rcases hp with rfl | rfl | rfl | rfl <;> decide

/-! ## Lemmas about `extractDirectedQuestions` -/

theorem directedQuestions_eq_nil_iff (recs : List StageResponse) (t : Text) :
    directedQuestions recs t = [] ↔ someLineMatches recs t = false := by
  simp only [directedQuestions, someLineMatches, List.flatMap_eq_nil_iff,
    List.filterMap_eq_nil_iff, Option.map_eq_none', captureLine_none_iff,
    List.any_eq_false, lineMatches, Bool.not_eq_true]

theorem mem_directedQuestions {recs : List StageResponse} {t q : Text}
    (h : q ∈ directedQuestions recs t) :
    ∃ resp ∈ recs, ∃ line ∈ splitOnNl resp.response, ∃ p ∈ targetPatterns t,
      containsSub (upper p) (upper line) = true ∧
      q = txt "From " ++ authorOf resp ++ txt ": " ++ questionFrom line (upper p) := by
  simp only [directedQuestions, List.mem_flatMap, List.mem_filterMap,
    Option.map_eq_some'] at h
  obtain ⟨resp, hresp, line, hline, q0, hcap, hq⟩ := h
  obtain ⟨p, hp, hc, hq0⟩ := captureLine_eq_some hcap
  exact ⟨resp, hresp, line, hline, p, hp, hc, by rw [← hq, hq0]⟩

theorem extractDirectedQuestions_ne_nil (recs : List StageResponse) (t : Text) :
    extractDirectedQuestions recs t ≠ [] := by
  unfold extractDirectedQuestions
  by_cases hq : directedQuestions recs t = []
  · simp only [hq, if_pos]
    decide
  · rw [if_neg hq]
    cases hql : directedQuestions recs t with
    | nil => exact absurd hql hq
    | cons q qs =>
      have hqmem : q ∈ directedQuestions recs t := by rw [hql]; simp
      obtain ⟨resp, -, line, -, p, -, -, hqeq⟩ := mem_directedQuestions hqmem
      obtain ⟨t0, ht0⟩ := joinSep_cons (txt "\n\n") q qs
      rw [ht0, hqeq]
      simp [txt]

theorem extract_eq_sentinel_iff (recs : List StageResponse) (t : Text) :
    extractDirectedQuestions recs t = noQuestionsSentinel ↔
      someLineMatches recs t = false := by
  rw [← directedQuestions_eq_nil_iff]
  unfold extractDirectedQuestions
  by_cases hq : directedQuestions recs t = []
  · simp [hq]
  · rw [if_neg hq]
    constructor
    · intro hj
      exfalso
      cases hql : directedQuestions recs t with
      | nil => exact hq hql
      | cons q qs =>
        have hqmem : q ∈ directedQuestions recs t := by rw [hql]; simp
        obtain ⟨resp, -, line, -, p, -, -, hqeq⟩ := mem_directedQuestions hqmem
        obtain ⟨t0, ht0⟩ := joinSep_cons (txt "\n\n") q qs
        rw [hql, ht0, hqeq] at hj
        simp [txt, noQuestionsSentinel, List.cons_eq_cons] at hj
    · intro hfalse
      exact absurd hfalse (by simpa using hq)

theorem directedQuestions_length_le (recs : List StageResponse) (t : Text) :
    (directedQuestions recs t).length ≤
      (recs.map fun resp => (splitOnNl resp.response).length).sum := by
  unfold directedQuestions
  rw [List.length_flatMap]
  apply List.sum_le_sum
  intro resp _
  simpa using List.length_filterMap_le _ (splitOnNl resp.response)

/-! ## Lemmas about the deliberation engine -/

theorem callAll_ok_roles {gen : Gen} :
    ∀ {rcs : List (Role × GenCall)} {rs : List StageResponse},
      callAll gen rcs = .ok rs →
      rs.map StageResponse.role = rcs.map fun rc => rc.1.name := by
  intro rcs
  induction rcs with
  | nil =>
    intro rs h
    rw [callAll] at h
    injection h with h
    subst h
    simp
  | cons rc rest ih =>
    intro rs h
    obtain ⟨r, c⟩ := rc
    rw [callAll] at h
    cases hg : gen c with
    | error e => rw [hg] at h; cases h
    | ok resp =>
      rw [hg] at h
      cases hc : callAll gen rest with
      | error e => rw [hc] at h; cases h
      | ok rs' =>
        rw [hc] at h
        injection h with h
        subst h
        simp [ih hc]

theorem callAll_ok_allOk {gen : Gen} :
    ∀ {rcs : List (Role × GenCall)} {rs : List StageResponse},
      callAll gen rcs = .ok rs →
      (rcs.all fun rc => exceptIsOk (gen rc.2)) = true := by
  intro rcs
  induction rcs with
  | nil => intro rs _; simp
  | cons rc rest ih =>
    intro rs h
    obtain ⟨r, c⟩ := rc
    rw [callAll] at h
    cases hg : gen c with
    | error e => rw [hg] at h; cases h
    | ok resp =>
      rw [hg] at h
      cases hc : callAll gen rest with
      | error e => rw [hc] at h; cases h
      | ok rs' =>
        simp only [List.all_cons, Bool.and_eq_true]
        exact ⟨by simp [exceptIsOk, hg], ih hc⟩

theorem reviewDocument_ok_spec {doc : Text} {cfg : Config} {gen : Gen}
    {r : ReviewResult} (h : (reviewDocument doc cfg gen).snd = .ok r) :
    callAll gen (stage1Calls cfg doc) = .ok r.stage1 ∧
    callAll gen (stage2Calls cfg (formatStage1Responses r.stage1)) = .ok r.stage2 ∧
    callAll gen (stage3Calls cfg (formatStage1Responses r.stage1) r.stage2)
      = .ok r.stage3 ∧
    gen (stage4Call cfg doc (formatStage1Responses r.stage1)
      (formatStage2Responses r.stage2) (stage3TextOf r.stage3)) = .ok r.synthesis ∧
    (reviewDocument doc cfg gen).fst =
      (stage1Calls cfg doc).map (fun rc => (StageTag.s1, rc.2)) ++
      (stage2Calls cfg (formatStage1Responses r.stage1)).map
        (fun rc => (StageTag.s2, rc.2)) ++
      (stage3Calls cfg (formatStage1Responses r.stage1) r.stage2).map
        (fun rc => (StageTag.s3, rc.2)) ++
      [(StageTag.s4, stage4Call cfg doc (formatStage1Responses r.stage1)
        (formatStage2Responses r.stage2) (stage3TextOf r.stage3))] := by
  unfold reviewDocument at h ⊢
  cases h1 : callAll gen (stage1Calls cfg doc) with
  | error e => simp only [h1] at h; cases h
  | ok s1 =>
    simp only [h1] at h ⊢
    cases h2 : callAll gen (stage2Calls cfg (formatStage1Responses s1)) with
    | error e => simp only [h2] at h; cases h
    | ok s2 =>
      simp only [h2] at h ⊢
      cases h3 : callAll gen (stage3Calls cfg (formatStage1Responses s1) s2) with
      | error e => simp only [h3] at h; cases h
      | ok s3 =>
        simp only [h3] at h ⊢
        cases h4 : gen (stage4Call cfg doc (formatStage1Responses s1)
            (formatStage2Responses s2) (stage3TextOf s3)) with
        | error e => simp only [h4] at h; cases h
        | ok syn =>
          simp only [h4] at h ⊢
          obtain rfl : r = ⟨s1, s2, s3, syn⟩ := by
            injection h with h
            exact h.symm
          exact ⟨rfl, h2, h3, h4, rfl⟩

theorem mem_stage1_log {cfg : Config} {doc : Text} {tc : StageTag × GenCall}
    (h : tc ∈ (stage1Calls cfg doc).map fun rc => (StageTag.s1, rc.2)) :
    tc.2.model = modelFor cfg tc.1 ∧ tc.2.temp = tempFor tc.1 := by
  simp only [stage1Calls, List.map_map, List.mem_map, Function.comp] at h
  obtain ⟨role, -, rfl⟩ := h
  exact ⟨rfl, rfl⟩

theorem mem_stage2_log {cfg : Config} {s1t : Text} {tc : StageTag × GenCall}
    (h : tc ∈ (stage2Calls cfg s1t).map fun rc => (StageTag.s2, rc.2)) :
    tc.2.model = modelFor cfg tc.1 ∧ tc.2.temp = tempFor tc.1 := by
  simp only [stage2Calls, List.map_map, List.mem_map, Function.comp] at h
  obtain ⟨role, -, rfl⟩ := h
  exact ⟨rfl, rfl⟩

theorem mem_stage3_log {cfg : Config} {s1t : Text} {s2res : List StageResponse}
    {tc : StageTag × GenCall}
    (h : tc ∈ (stage3Calls cfg s1t s2res).map fun rc => (StageTag.s3, rc.2)) :
    tc.2.model = modelFor cfg tc.1 ∧ tc.2.temp = tempFor tc.1 := by
  simp only [stage3Calls, List.map_map, List.mem_map, Function.comp] at h
  obtain ⟨role, -, rfl⟩ := h
  exact ⟨rfl, rfl⟩

theorem stage4Call_meta (cfg : Config) (doc s1t s2t s3t : Text) :
    (stage4Call cfg doc s1t s2t s3t).model = modelFor cfg StageTag.s4 ∧
    (stage4Call cfg doc s1t s2t s3t).temp = tempFor StageTag.s4 :=
  ⟨rfl, rfl⟩

/-! ## Lemmas for the empty-stage-3 scenario -/

theorem innerFold_const (resp : StageResponse) (l : List Role)
    (h : ∀ role ∈ l, roleMentioned resp role = false) (s : List Role) :
    l.foldl
      (fun s' role => if roleMentioned resp role then addRole s' role else s') s
      = s := by
  induction l generalizing s with
  | nil => rfl
  | cons a l ih =>
    simp only [List.foldl_cons]
    rw [if_neg (by simp [h a (by simp)])]
    exact ih (fun role hr => h role (by simp [hr])) s

theorem outerFold_const {recs : List StageResponse}
    (h : ∀ resp ∈ recs, ∀ role ∈ ROLES, roleMentioned resp role = false) :
    ∀ s, recs.foldl
      (fun s resp => ROLES.foldl
        (fun s' role => if roleMentioned resp role then addRole s' role else s') s)
      s = s := by
  induction recs with
  | nil => intro s; rfl
  | cons a recs ih =>
    intro s
    simp only [List.foldl_cons]
    rw [innerFold_const a ROLES (h a (by simp)) s]
    exact ih (fun resp hr role hrole => h resp (by simp [hr]) role hrole) s

theorem gEWQ_nil_of_noRoleAddressed {recs : List StageResponse}
    (h : noRoleAddressed recs = true) : getExecutivesWithQuestions recs = [] := by
  unfold getExecutivesWithQuestions
  apply outerFold_const
  intro resp hresp role hrole
  simp only [noRoleAddressed, List.all_eq_true, Bool.not_eq_true'] at h
  exact h resp hresp role hrole

theorem Role.name_injective : Function.Injective Role.name := by
  intro a b h
  cases a <;> cases b <;> first | rfl | exact absurd h (by decide)

theorem mem_full_log {cfg : Config} {doc s1t s2t s3t : Text}
    {s2res : List StageResponse} {tc : StageTag × GenCall}
    (h : tc ∈ (stage1Calls cfg doc).map (fun rc => (StageTag.s1, rc.2)) ++
          (stage2Calls cfg s1t).map (fun rc => (StageTag.s2, rc.2)) ++
          (stage3Calls cfg s1t s2res).map (fun rc => (StageTag.s3, rc.2)) ++
          [(StageTag.s4, stage4Call cfg doc s1t s2t s3t)]) :
    tc.2.model = modelFor cfg tc.1 ∧ tc.2.temp = tempFor tc.1 := by
  rcases List.mem_append.mp h with h | h
  · rcases List.mem_append.mp h with h | h
    · rcases List.mem_append.mp h with h | h
      · exact mem_stage1_log h
      · exact mem_stage2_log h
    · exact mem_stage3_log h
  · rw [List.mem_singleton] at h
    subst h
    exact ⟨rfl, rfl⟩

theorem all_map_general {α β : Type} (f : α → β) (l : List α) (p : β → Bool) :
    (l.map f).all p = l.all fun a => p (f a) := by
  induction l with
  | nil => rfl
  | cons a l ih => simp [ih]

/-! ## The claims -/

/-- C1 (amended): whenever `extractDirectedQuestions records R` returns
anything other than its sentinel, `R` is a member of
`getExecutivesWithQuestions records`.  The converse direction of the claim
is false (see the counterexample): `getExecutivesWithQuestions` also
matches the colon-less patterns `QUESTION TO R`, `QUESTION FOR R` and
`@R`, which `extractDirectedQuestions` does not. -/
theorem extract_nonsentinel_implies_hasAddressed (recs : List StageResponse)
    (r : Role) (h : extractDirectedQuestions recs r.name ≠ noQuestionsSentinel) :
    r ∈ getExecutivesWithQuestions recs := by
  have hq : directedQuestions recs r.name ≠ [] := by
    intro hnil
    apply h
    unfold extractDirectedQuestions
    simp [hnil]
  obtain ⟨q, hqmem⟩ := List.exists_mem_of_ne_nil _ hq
  obtain ⟨resp, hresp, line, hline, p, hp, hc, -⟩ := mem_directedQuestions hqmem
  obtain ⟨p', hp', hc'⟩ := targetPatterns_ge hp
  have h1 : containsSub (upper line) (upper resp.response) = true :=
    containsSub_upper (containsSub_of_mem_splitOnNl hline)
  have h2 : containsSub p' (upper resp.response) = true :=
    containsSub_trans (containsSub_trans hc' hc) h1
  exact mem_gEWQ hresp (List.any_eq_true.mpr ⟨p', hp', h2⟩)

theorem extract_nonsentinel_implies_hasAddressed_witness :
    Role.CPO ∈ getExecutivesWithQuestions
      [⟨txt "CTO", txt "Question to CPO: will this scale?"⟩] :=
  extract_nonsentinel_implies_hasAddressed
    [⟨txt "CTO", txt "Question to CPO: will this scale?"⟩] Role.CPO (by decide)

/-- C1 counterexample: the claimed equivalence is false.  The record
`"@CPO are we ok"` (no colon) puts CPO into `getExecutivesWithQuestions`,
yet `extractDirectedQuestions` returns its sentinel for CPO. -/
theorem extract_hasAddressed_iff_counterexample :
    ¬ (∀ (recs : List StageResponse) (r : Role),
        (extractDirectedQuestions recs r.name ≠ noQuestionsSentinel ↔
          r ∈ getExecutivesWithQuestions recs)) := by
  intro hiff
  exact (hiff [⟨txt "CTO", txt "@CPO are we ok"⟩] Role.CPO).mpr
    (by decide) (by decide)

/-- C2 (amended): once a job's record is `completed` or `failed`, every
further status-store write keeps it terminal, except the `processing` write
a redelivered queue message performs at the start of a new attempt
(`beginAttempt`), which the unconditional `updateJobStatus` lets move the
record back to `processing`. -/
theorem terminal_status_preserved_except_redelivery (jobId : Text)
    (rec : Option JobStatus) (e : Event) (hterm : isTerminalRec rec = true)
    (hne : ∀ s, e ≠ Event.beginAttempt s) :
    isTerminalRec (applyEvent jobId rec e) = true := by
  cases e with
  | beginAttempt s => exact absurd rfl (hne s)
  | finishSuccess now => simp [applyEvent, isTerminalRec, statusOf, updateJobStatus]
  | finishFailure err now =>
    simp [applyEvent, isTerminalRec, statusOf, updateJobStatus]
  | reportProgress stage step =>
    cases rec with
    | none => simp [isTerminalRec, statusOf] at hterm
    | some u =>
      simpa [applyEvent, updateJobProgress, isTerminalRec, statusOf] using hterm

theorem terminal_status_preserved_except_redelivery_witness :
    isTerminalRec (applyEvent (txt "j") (some failedRec0)
      (Event.reportProgress (txt "stage1") (txt "step"))) = true :=
  terminal_status_preserved_except_redelivery (txt "j") (some failedRec0)
    (Event.reportProgress (txt "stage1") (txt "step")) (by decide)
    (fun s h => Event.noConfusion h)

/-- C2 counterexample: status is not monotonic under every operation.  After
a first attempt fails (`submit; beginAttempt; finishFailure` — a trace the
retry path produces), redelivering the message performs another
`beginAttempt` write, which moves the record from `failed` back to
`processing`. -/
theorem status_monotonic_counterexample :
    ¬ (∀ (jobId : Text) (rec : Option JobStatus) (e : Event),
        isTerminalRec rec = true →
        isTerminalRec (applyEvent jobId rec e) = true) := by
  intro hmono
  have hterm : isTerminalRec
      (runEvents (txt "j") (some (initialJobStatus (txt "j") (txt "t0") none))
        [Event.beginAttempt (txt "t1"),
         Event.finishFailure (txt "boom") (txt "t2")]) = true := by decide
  have := hmono (txt "j")
    (runEvents (txt "j") (some (initialJobStatus (txt "j") (txt "t0") none))
      [Event.beginAttempt (txt "t1"), Event.finishFailure (txt "boom") (txt "t2")])
    (Event.beginAttempt (txt "t3")) hterm
  exact absurd this (by decide)

/-- C3: if any generation call issued during a run fails, the run yields no
`ReviewResult` (first conjunct, contrapositively: a successful run implies
every issued call succeeded), and the dispatcher then leaves the result
blob untouched and marks the job `failed` with the error captured in the
record (second conjunct). -/
theorem provider_failure_fails_job (doc : Text) (cfg : Config) (gen : Gen)
    (st : StoreState) (jobId nowStart nowEnd : Text) (pws : List Progress)
    (hdoc : st.doc = some doc) (hcfg : st.cfg = some cfg) :
    (∀ r, (reviewDocument doc cfg gen).snd = .ok r →
      ((reviewDocument doc cfg gen).fst.all fun tc => exceptIsOk (gen tc.2)) = true) ∧
    (∀ e, (reviewDocument doc cfg gen).snd = .error e →
      (processMessage st jobId gen pws nowStart nowEnd).result = st.result ∧
      ∃ u, (processMessage st jobId gen pws nowStart nowEnd).job = some u ∧
        u.status = Status.failed ∧ u.error = some e) := by
  constructor
  · intro r hok
    obtain ⟨h1, h2, h3, h4, hlog⟩ := reviewDocument_ok_spec hok
    rw [hlog]
    simp only [List.all_append, Bool.and_eq_true]
    refine ⟨⟨⟨?_, ?_⟩, ?_⟩, ?_⟩
    · rw [all_map_general]; exact callAll_ok_allOk h1
    · rw [all_map_general]; exact callAll_ok_allOk h2
    · rw [all_map_general]; exact callAll_ok_allOk h3
    · simp [exceptIsOk, h4]
  · intro e herr
    obtain ⟨job0, doc0, cfg1, res0⟩ := st
    have hdoc' : doc0 = some doc := hdoc
    have hcfg' : cfg1 = some cfg := hcfg
    subst hdoc'
    subst hcfg'
    unfold processMessage
    simp only [herr]
    exact ⟨trivial, _, rfl, rfl, rfl⟩

theorem provider_failure_fails_job_witness :
    (processMessage st0 (txt "j") genBad0 [] (txt "t1") (txt "t2")).result
      = st0.result ∧
    ∃ u, (processMessage st0 (txt "j") genBad0 [] (txt "t1") (txt "t2")).job
        = some u ∧
      u.status = Status.failed ∧ u.error = some (txt "boom") :=
  (provider_failure_fails_job (txt "d") cfg0 genBad0 st0 (txt "j") (txt "t1")
    (txt "t2") [] rfl rfl).2 (txt "boom") rfl

/-- C4: in every successful run the stage-1 and stage-2 arrays carry exactly
one record per reviewer role, in the fixed `ROLES` order; `Promise.all`
preserves issuance order, which the embedding's in-order `callAll`
realises, so completion order cannot affect it. -/
theorem stage_arrays_role_order (doc : Text) (cfg : Config) (gen : Gen)
    (r : ReviewResult) (h : (reviewDocument doc cfg gen).snd = .ok r) :
    r.stage1.map StageResponse.role = ROLES.map Role.name ∧
    r.stage2.map StageResponse.role = ROLES.map Role.name := by
  obtain ⟨h1, h2, -, -, -⟩ := reviewDocument_ok_spec h
  constructor
  · rw [callAll_ok_roles h1]
    simp [stage1Calls, List.map_map, Function.comp]
  · rw [callAll_ok_roles h2]
    simp [stage2Calls, List.map_map, Function.comp]

theorem stage_arrays_role_order_witness :
    reviewResult0.stage1.map StageResponse.role = ROLES.map Role.name ∧
    reviewResult0.stage2.map StageResponse.role = ROLES.map Role.name :=
  stage_arrays_role_order (txt "d") cfg0 genOk0 reviewResult0 rfl

/-- C5: `extractDirectedQuestions` never returns the empty string; it
returns its sentinel exactly when no line of any record contains (case-
insensitively) an addressing pattern for the target role; each line is
captured at most once (the capture count is bounded by the line count);
and every captured entry is `From author: ` followed by the line's text
from the first (leftmost, hence longest-suffix) occurrence of the matched
pattern, the pattern being chosen in the fixed priority order of
`targetPatterns`. -/
theorem extractFor_characterisation (recs : List StageResponse) (t : Text) :
    extractDirectedQuestions recs t ≠ [] ∧
    (extractDirectedQuestions recs t = noQuestionsSentinel ↔
      someLineMatches recs t = false) ∧
    (directedQuestions recs t).length ≤
      (recs.map fun resp => (splitOnNl resp.response).length).sum ∧
    List.Forall (fun q =>
      ∃ resp ∈ recs, ∃ line ∈ splitOnNl resp.response, ∃ p ∈ targetPatterns t,
        containsSub (upper p) (upper line) = true ∧
        isPrefixTxt (upper p) (upper (questionFrom line (upper p))) = true ∧
        (∃ a, line = a ++ questionFrom line (upper p)) ∧
        (∀ s, (∃ a, line = a ++ s) → isPrefixTxt (upper p) (upper s) = true →
          s.length ≤ (questionFrom line (upper p)).length) ∧
        q = txt "From " ++ authorOf resp ++ txt ": " ++ questionFrom line (upper p))
      (directedQuestions recs t) := by
  refine ⟨extractDirectedQuestions_ne_nil recs t, extract_eq_sentinel_iff recs t,
    directedQuestions_length_le recs t, ?_⟩
  rw [List.forall_iff_forall_mem]
  intro q hq
  obtain ⟨resp, hresp, line, hline, p, hp, hc, hqe⟩ := mem_directedQuestions hq
  exact ⟨resp, hresp, line, hline, p, hp, hc, questionFrom_isPrefix hc,
    questionFrom_suffix line (upper p),
    fun s hs hps => questionFrom_longest hs hps, hqe⟩

theorem extractFor_characterisation_witness :
    extractDirectedQuestions [⟨txt "A", txt "To CPO: x"⟩] (txt "CPO") ≠ [] ∧
    (extractDirectedQuestions [⟨txt "A", txt "To CPO: x"⟩] (txt "CPO")
        = noQuestionsSentinel ↔
      someLineMatches [⟨txt "A", txt "To CPO: x"⟩] (txt "CPO") = false) ∧
    (directedQuestions [⟨txt "A", txt "To CPO: x"⟩] (txt "CPO")).length ≤
      ([⟨txt "A", txt "To CPO: x"⟩].map
        fun resp : StageResponse => (splitOnNl resp.response).length).sum ∧
    List.Forall (fun q =>
      ∃ resp ∈ [(⟨txt "A", txt "To CPO: x"⟩ : StageResponse)],
        ∃ line ∈ splitOnNl resp.response, ∃ p ∈ targetPatterns (txt "CPO"),
        containsSub (upper p) (upper line) = true ∧
        isPrefixTxt (upper p) (upper (questionFrom line (upper p))) = true ∧
        (∃ a, line = a ++ questionFrom line (upper p)) ∧
        (∀ s, (∃ a, line = a ++ s) → isPrefixTxt (upper p) (upper s) = true →
          s.length ≤ (questionFrom line (upper p)).length) ∧
        q = txt "From " ++ authorOf resp ++ txt ": " ++ questionFrom line (upper p))
      (directedQuestions [⟨txt "A", txt "To CPO: x"⟩] (txt "CPO")) :=
  extractFor_characterisation [⟨txt "A", txt "To CPO: x"⟩] (txt "CPO")

/-- C6: when no stage-2 record contains any addressing pattern for any
reviewer role, the run issues no stage-3 generation call, the result's
stage3 array is empty, and the stage-3 text substituted into the stage-4
synthesis prompt is the sentinel `No responses required.` (the single
stage-4 call in the log is built with that sentinel in its stage-3 slot). -/
theorem no_addressed_roles_stage3_empty (doc : Text) (cfg : Config) (gen : Gen)
    (r : ReviewResult) (hok : (reviewDocument doc cfg gen).snd = .ok r)
    (hnone : noRoleAddressed r.stage2 = true) :
    r.stage3 = [] ∧
    ((reviewDocument doc cfg gen).fst.all fun tc => !(tc.1 == StageTag.s3)) = true ∧
    stage3TextOf r.stage3 = noResponsesSentinel ∧
    (reviewDocument doc cfg gen).fst.filter (fun tc => tc.1 == StageTag.s4) =
      [(StageTag.s4, stage4Call cfg doc (formatStage1Responses r.stage1)
        (formatStage2Responses r.stage2) noResponsesSentinel)] := by
  obtain ⟨h1, h2, h3, h4, hlog⟩ := reviewDocument_ok_spec hok
  have hnil : getExecutivesWithQuestions r.stage2 = [] :=
    gEWQ_nil_of_noRoleAddressed hnone
  have hs3calls : stage3Calls cfg (formatStage1Responses r.stage1) r.stage2 = [] := by
    simp [stage3Calls, hnil]
  have hstage3 : r.stage3 = [] := by
    rw [hs3calls, callAll] at h3
    injection h3 with h3
    exact h3.symm
  have hs3t : stage3TextOf r.stage3 = noResponsesSentinel := by
    rw [hstage3]
    rfl
  refine ⟨hstage3, ?_, hs3t, ?_⟩
  · rw [hlog, hs3calls]
    simp only [List.map_nil, List.append_nil, List.all_append, Bool.and_eq_true]
    refine ⟨⟨?_, ?_⟩, by simp⟩
    · rw [all_map_general]
      simp
    · rw [all_map_general]
      simp
  · rw [hlog, hs3calls, hs3t]
    simp only [List.filter_append, List.filter_map, Function.comp_def]
    simp only [show (StageTag.s1 == StageTag.s4) = false from rfl,
      show (StageTag.s2 == StageTag.s4) = false from rfl]
    simp

theorem no_addressed_roles_stage3_empty_witness :
    reviewResult0.stage3 = [] ∧
    ((reviewDocument (txt "d") cfg0 genOk0).fst.all
      fun tc => !(tc.1 == StageTag.s3)) = true ∧
    stage3TextOf reviewResult0.stage3 = noResponsesSentinel ∧
    (reviewDocument (txt "d") cfg0 genOk0).fst.filter
        (fun tc => tc.1 == StageTag.s4) =
      [(StageTag.s4, stage4Call cfg0 (txt "d")
        (formatStage1Responses reviewResult0.stage1)
        (formatStage2Responses reviewResult0.stage2) noResponsesSentinel)] :=
  no_addressed_roles_stage3_empty (txt "d") cfg0 genOk0 reviewResult0 rfl
    (by decide)

/-- C7: every call the engine issues — in successful and in failing runs —
uses the configured executive model id for stages 1-3 with temperatures
0.7, 0.6 and 0.7, and the CEO model id with temperature 0.7 for the single
stage-4 call. -/
theorem per_stage_model_and_temperature (doc : Text) (cfg : Config) (gen : Gen) :
    List.Forall
      (fun tc => tc.2.model = modelFor cfg tc.1 ∧ tc.2.temp = tempFor tc.1)
      (reviewDocument doc cfg gen).fst := by
  rw [List.forall_iff_forall_mem]
  intro tc htc
  unfold reviewDocument at htc
  cases h1 : callAll gen (stage1Calls cfg doc) with
  | error e =>
    simp only [h1] at htc
    exact mem_stage1_log htc
  | ok s1 =>
    simp only [h1] at htc
    cases h2 : callAll gen (stage2Calls cfg (formatStage1Responses s1)) with
    | error e =>
      simp only [h2] at htc
      rcases List.mem_append.mp htc with h | h
      · exact mem_stage1_log h
      · exact mem_stage2_log h
    | ok s2 =>
      simp only [h2] at htc
      cases h3 : callAll gen (stage3Calls cfg (formatStage1Responses s1) s2) with
      | error e =>
        simp only [h3] at htc
        rcases List.mem_append.mp htc with h | h
        · rcases List.mem_append.mp h with h' | h'
          · exact mem_stage1_log h'
          · exact mem_stage2_log h'
        · exact mem_stage3_log h
      | ok s3 =>
        simp only [h3] at htc
        cases h4 : gen (stage4Call cfg doc (formatStage1Responses s1)
            (formatStage2Responses s2) (stage3TextOf s3)) with
        | error e =>
          simp only [h4] at htc
          exact mem_full_log htc
        | ok syn =>
          simp only [h4] at htc
          exact mem_full_log htc

theorem per_stage_model_and_temperature_witness :
    List.Forall
      (fun tc => tc.2.model = modelFor cfg0 tc.1 ∧ tc.2.temp = tempFor tc.1)
      (reviewDocument (txt "d") cfg0 genOk0).fst :=
  per_stage_model_and_temperature (txt "d") cfg0 genOk0

/-- C8: a submission that fails validation — missing or empty document,
document over 100000 characters, missing config (or any missing config
field), or a webhook URL the URL check rejects — is answered with HTTP 400
and produces no write at all: no document blob, no config blob, no status
record and no queue message. -/
theorem validation_failure_no_side_effects (isUrl : Text → Bool)
    (raw : RawRequest) (jobId ts : Text) :
    (parseReviewRequest isUrl raw = none →
      postReview isUrl raw jobId ts =
        { httpStatus := 400, docPuts := [], configPuts := [], jobPuts := [],
          queueMsgs := [] }) ∧
    (raw.document = none → parseReviewRequest isUrl raw = none) ∧
    (raw.document = some [] → parseReviewRequest isUrl raw = none) ∧
    (∀ d, raw.document = some d → 100000 < d.length →
      parseReviewRequest isUrl raw = none) ∧
    (raw.config = none → parseReviewRequest isUrl raw = none) ∧
    (∀ rc, raw.config = some rc → parseConfig rc = none →
      parseReviewRequest isUrl raw = none) ∧
    (∀ u, raw.webhook_url = some u → isUrl u = false →
      parseReviewRequest isUrl raw = none) := by
  obtain ⟨rdoc, rcfg, rwh⟩ := raw
  refine ⟨?_, ?_, ?_, ?_, ?_, ?_, ?_⟩
  · intro h
    simp [postReview, h]
  · intro h
    have h' : rdoc = none := h
    subst h'
    rfl
  · intro h
    have h' : rdoc = some [] := h
    subst h'
    rfl
  · intro d hd hlen
    have h' : rdoc = some d := hd
    subst h'
    unfold parseReviewRequest
    dsimp only
    rw [if_pos (Or.inr hlen)]
  · intro h
    have h' : rcfg = none := h
    subst h'
    cases rdoc with
    | none => rfl
    | some d =>
      unfold parseReviewRequest
      dsimp only
      split
      · rfl
      · rfl
  · intro rc hrc hpc
    have h' : rcfg = some rc := hrc
    subst h'
    cases rdoc with
    | none => rfl
    | some d =>
      unfold parseReviewRequest
      dsimp only
      split
      · rfl
      · simp only [hpc]
  · intro u hu hfalse
    have h' : rwh = some u := hu
    subst h'
    cases rdoc with
    | none => rfl
    | some d =>
      unfold parseReviewRequest
      dsimp only
      split
      · rfl
      · cases rcfg with
        | none => rfl
        | some rc =>
          cases hpc : parseConfig rc with
          | none => simp only [hpc]
          | some cfg => simp only [hpc, hfalse]; simp [hfalse]

theorem validation_failure_no_side_effects_witness :
    postReview (fun _ => true) rawBad0 (txt "j") (txt "t") =
      { httpStatus := 400, docPuts := [], configPuts := [], jobPuts := [],
        queueMsgs := [] } :=
  (validation_failure_no_side_effects (fun _ => true) rawBad0 (txt "j")
    (txt "t")).1 (by decide)

/-- C9: `updateJobStatus` spread-merges the new fields over the existing
record and clears nothing: completing a job whose record still carries
`error`, `failed_at` and `progress` from an earlier failed attempt leaves
all of them in place next to `status = completed` and the new
`completed_at`, and `created_at` is preserved whenever it is non-empty
(which it always is for records the system writes). -/
theorem updateJobStatus_merge_preserves_fields (existing : JobStatus)
    (jobId t now : Text) (hca : existing.created_at ≠ []) :
    (updateJobStatus (some existing) jobId .completed
        { completed_at := some t } now).status = Status.completed ∧
    (updateJobStatus (some existing) jobId .completed
        { completed_at := some t } now).completed_at = some t ∧
    (updateJobStatus (some existing) jobId .completed
        { completed_at := some t } now).error = existing.error ∧
    (updateJobStatus (some existing) jobId .completed
        { completed_at := some t } now).failed_at = existing.failed_at ∧
    (updateJobStatus (some existing) jobId .completed
        { completed_at := some t } now).progress = existing.progress ∧
    (updateJobStatus (some existing) jobId .completed
        { completed_at := some t } now).started_at = existing.started_at ∧
    (updateJobStatus (some existing) jobId .completed
        { completed_at := some t } now).created_at = existing.created_at ∧
    (updateJobStatus (some existing) jobId .completed
        { completed_at := some t } now).webhook_url = existing.webhook_url := by
  simp [updateJobStatus, Option.orElse, hca]

theorem updateJobStatus_merge_preserves_fields_witness :
    (updateJobStatus (some failedRec0) (txt "j") .completed
        { completed_at := some (txt "t3") } (txt "t4")).status = Status.completed ∧
    (updateJobStatus (some failedRec0) (txt "j") .completed
        { completed_at := some (txt "t3") } (txt "t4")).completed_at
      = some (txt "t3") ∧
    (updateJobStatus (some failedRec0) (txt "j") .completed
        { completed_at := some (txt "t3") } (txt "t4")).error = failedRec0.error ∧
    (updateJobStatus (some failedRec0) (txt "j") .completed
        { completed_at := some (txt "t3") } (txt "t4")).failed_at
      = failedRec0.failed_at ∧
    (updateJobStatus (some failedRec0) (txt "j") .completed
        { completed_at := some (txt "t3") } (txt "t4")).progress
      = failedRec0.progress ∧
    (updateJobStatus (some failedRec0) (txt "j") .completed
        { completed_at := some (txt "t3") } (txt "t4")).started_at
      = failedRec0.started_at ∧
    (updateJobStatus (some failedRec0) (txt "j") .completed
        { completed_at := some (txt "t3") } (txt "t4")).created_at
      = failedRec0.created_at ∧
    (updateJobStatus (some failedRec0) (txt "j") .completed
        { completed_at := some (txt "t3") } (txt "t4")).webhook_url
      = failedRec0.webhook_url :=
  updateJobStatus_merge_preserves_fields failedRec0 (txt "j") (txt "t3")
    (txt "t4") (by decide)

/-- C10: in every successful run the stage3 roles are pairwise distinct,
each is one of the four reviewer role names (hence never the synthesizer
role CEO), and stage3 has at most 4 entries. -/
theorem stage3_roles_invariant (doc : Text) (cfg : Config) (gen : Gen)
    (r : ReviewResult) (h : (reviewDocument doc cfg gen).snd = .ok r) :
    (r.stage3.map StageResponse.role).Nodup ∧
    (∀ x ∈ r.stage3.map StageResponse.role, x ∈ ROLES.map Role.name) ∧
    txt "CEO" ∉ r.stage3.map StageResponse.role ∧
    r.stage3.length ≤ 4 := by
  obtain ⟨-, -, h3, -, -⟩ := reviewDocument_ok_spec h
  have hroles : r.stage3.map StageResponse.role
      = (getExecutivesWithQuestions r.stage2).map Role.name := by
    rw [callAll_ok_roles h3]
    simp [stage3Calls, List.map_map, Function.comp]
  have hnodup : (r.stage3.map StageResponse.role).Nodup := by
    rw [hroles]
    exact List.Nodup.map Role.name_injective (gEWQ_nodup r.stage2)
  have hsub : ∀ x ∈ r.stage3.map StageResponse.role, x ∈ ROLES.map Role.name := by
    rw [hroles]
    intro x hx
    obtain ⟨role, hrole, rfl⟩ := List.mem_map.mp hx
    exact List.mem_map.mpr ⟨role, gEWQ_subset r.stage2 role hrole, rfl⟩
  refine ⟨hnodup, hsub, ?_, ?_⟩
  · intro hmem
    exact absurd (hsub _ hmem) (by decide)
  · have hlen : r.stage3.length
        = (getExecutivesWithQuestions r.stage2).length := by
      have hc := congrArg List.length hroles
      simpa using hc
    rw [hlen]
    have hsp := (gEWQ_nodup r.stage2).subperm
      (fun x hx => gEWQ_subset r.stage2 x hx)
    simpa [ROLES] using hsp.length_le

theorem stage3_roles_invariant_witness :
    (reviewResult1.stage3.map StageResponse.role).Nodup ∧
    (∀ x ∈ reviewResult1.stage3.map StageResponse.role,
      x ∈ ROLES.map Role.name) ∧
    txt "CEO" ∉ reviewResult1.stage3.map StageResponse.role ∧
    reviewResult1.stage3.length ≤ 4 :=
  stage3_roles_invariant (txt "d") cfg0 gen1 reviewResult1 rfl
